import Mathlib

/-!
Verification development for the atomsmm repository (forces.py, utils.py).

The repository builds OpenMM force objects from algebraic-expression strings.
We embed those expressions as functions over a linear ordered field (instantiated
at `ℚ` for the exact-arithmetic claims and at `ℝ` where the Lorentz–Berthelot
square root is involved), embed the constructors of the AtomsMM force classes,
and prove the specification claims about them.
-/

section Helpers

variable {α : Type} [LinearOrderedField α]

/-- The OpenMM `step` function appearing in the energy expression strings:
`step(x) = 0` for `x < 0` and `1` otherwise. -/
def step (x : α) : α := if 0 ≤ x then 1 else 0

/-- Embeds `utils.LennardJones(r) = 4*epsilon*((sigma/r)^12 - (sigma/r)^6)`. -/
def LennardJones (epsilon sigma r : α) : α :=
  4 * epsilon * ((sigma / r) ^ 12 - (sigma / r) ^ 6)

/-- Embeds `utils.Coulomb(r) = Kc*chargeprod/r`, with the global parameter `Kc`
passed explicitly. -/
def Coulomb (Kc chargeprod r : α) : α := Kc * chargeprod / r

/-- The value of the constant `Kc = 138.935456 kJ/mol/nm` set as a global
parameter by the force constructors. -/
def KcVal : α := 138935456 / 1000000

/-- The switching variable `u = (r^degree - rswitch^degree)/(rcut^degree - rswitch^degree)`
from `DampedSmoothedForce.__init__` (and, with `degree = 1`, from
`FarNonbondedForce.__init__`). -/
def uVal (rswitch rcut : α) (degree : ℕ) (r : α) : α :=
  (r ^ degree - rswitch ^ degree) / (rcut ^ degree - rswitch ^ degree)

/-- The switching multiplier `S = 1 + step(r - rswitch)*u^3*(15*u - 6*u^2 - 10)`
from the energy-expression strings of `DampedSmoothedForce.__init__` and
`FarNonbondedForce.__init__`. -/
def switchS (rswitch rcut : α) (degree : ℕ) (r : α) : α :=
  1 + step (r - rswitch) * (uVal rswitch rcut degree r) ^ 3 *
    (15 * uVal rswitch rcut degree r - 6 * (uVal rswitch rcut degree r) ^ 2 - 10)

/-- Modelled from the spec: the toolkit's native switching multiplier, with
`x = (r - rswitch)/(rcut - rswitch)` linear in `r`, applied between the
switching distance and the cutoff (the spec calls this "the general-purpose
toolkit switching function over r directly"). -/
def openmmSwitch (rswitch rcut r : α) : α :=
  if r ≤ rswitch then 1
  else 1 - 10 * ((r - rswitch) / (rcut - rswitch)) ^ 3
         + 15 * ((r - rswitch) / (rcut - rswitch)) ^ 4
         - 6 * ((r - rswitch) / (rcut - rswitch)) ^ 5

end Helpers

/-- A pair's nonbonded parameters after the per-particle parameters have been
combined (the `chargeprod`, `sigma`, `epsilon` symbols of the energy
expressions). -/
structure PairParams where
  chargeprod : ℚ
  sigma : ℚ
  epsilon : ℚ

/-- Embeds `_CustomNonbondedForce`: the per-pair energy expression together
with the cutoff and switching settings applied in `__init__`. -/
structure CustomNonbondedForce where
  energy : PairParams → ℚ → ℚ
  cutoffDistance : ℚ
  useSwitchingFunction : Bool
  switchingDistance : Option ℚ

/-- Embeds `_CustomNonbondedForce.__init__`: the cutoff is set, and the
toolkit switching function is enabled exactly when a switching distance is
supplied. -/
def CustomNonbondedForce.init (energy : PairParams → ℚ → ℚ) (cutoff_distance : ℚ)
    (switch_distance : Option ℚ) : CustomNonbondedForce :=
  { energy := energy
    cutoffDistance := cutoff_distance
    useSwitchingFunction := switch_distance.isSome
    switchingDistance := switch_distance }

/-- Modelled from the spec: the toolkit's evaluation of a custom nonbonded
force on one pair at distance `r` — the energy expression, multiplied by the
native switching function when enabled, and zero beyond the cutoff. -/
def CustomNonbondedForce.pairEnergy (f : CustomNonbondedForce) (p : PairParams) (r : ℚ) : ℚ :=
  if r ≤ f.cutoffDistance then
    (match f.switchingDistance with
     | some rs => openmmSwitch rs f.cutoffDistance r
     | none => 1) * f.energy p r
  else 0

/-- Embeds `_NonbondedForce`: the settings applied by `__init__` (the full
LJ + Coulomb toolkit force used as the `total` part of `FarNonbondedForce`). -/
structure NonbondedForce where
  cutoffDistance : ℚ
  useSwitchingFunction : Bool
  switchingDistance : Option ℚ
  useDispersionCorrection : Bool

/-- Embeds `_NonbondedForce.__init__`. -/
def NonbondedForce.init (cutoff_distance : ℚ) (switch_distance : Option ℚ) : NonbondedForce :=
  { cutoffDistance := cutoff_distance
    useSwitchingFunction := switch_distance.isSome
    switchingDistance := switch_distance
    useDispersionCorrection := true }

/-- Modelled from the spec: the direct pairwise term of the toolkit
`NonbondedForce`, which the spec treats as the unmodified full potential
`U_total_cutoff_PME(r)` (reciprocal-space and dispersion corrections are not
pairwise and are omitted). -/
def NonbondedForce.pairEnergy (f : NonbondedForce) (p : PairParams) (r : ℚ) : ℚ :=
  if r ≤ f.cutoffDistance then
    (match f.switchingDistance with
     | some rs => openmmSwitch rs f.cutoffDistance r
     | none => 1) *
      (LennardJones p.epsilon p.sigma r + Coulomb KcVal p.chargeprod r)
  else 0

/-- The potential string built in `NearNonbondedForce.__init__`:
`LJ(r)+Coulomb(r)` minus, when `shifted`, `LJ(rc0)+Coulomb(rc0)`. -/
def nearPotential (shifted : Bool) (rc0 : ℚ) (p : PairParams) (r : ℚ) : ℚ :=
  LennardJones p.epsilon p.sigma r + Coulomb KcVal p.chargeprod r -
    (if shifted then LennardJones p.epsilon p.sigma rc0 + Coulomb KcVal p.chargeprod rc0 else 0)

/-- Embeds `NearNonbondedForce`: the custom force built in `__init__` plus the
attributes `index`, `rswitch`, `rcut`, `shifted` recorded there. -/
structure NearNonbondedForce where
  force : CustomNonbondedForce
  index : ℕ
  rswitch : ℚ
  rcut : ℚ
  shifted : Bool

/-- Embeds `NearNonbondedForce.__init__`. -/
def NearNonbondedForce.make (cutoff_distance switch_distance : ℚ)
    (shifted : Bool) : NearNonbondedForce :=
  { force := CustomNonbondedForce.init (nearPotential shifted cutoff_distance)
      cutoff_distance (some switch_distance)
    index := 0
    rswitch := switch_distance
    rcut := cutoff_distance
    shifted := shifted }

/-- The discount potential string built in `FarNonbondedForce.__init__`:
`-(LJ(r)+Coulomb(r))` plus, when the preceding force is shifted,
`LJ(rci)+Coulomb(rci)`. -/
def farDiscountPotential (shifted : Bool) (rci : ℚ) (p : PairParams) (r : ℚ) : ℚ :=
  -(LennardJones p.epsilon p.sigma r + Coulomb KcVal p.chargeprod r) +
    (if shifted then LennardJones p.epsilon p.sigma rci + Coulomb KcVal p.chargeprod rci else 0)

/-- The full discount energy expression of `FarNonbondedForce.__init__`:
`step(rci - r) * S * potential` with `S = 1 + step(r - rsi)*u^3*(15u - 6u^2 - 10)`
and `u = (r - rsi)/(rci - rsi)`. -/
def farDiscountEnergy (rsi rci : ℚ) (shifted : Bool) (p : PairParams) (r : ℚ) : ℚ :=
  step (rci - r) * switchS rsi rci 1 r * farDiscountPotential shifted rci p r

/-- Embeds `FarNonbondedForce`: the pair `[total, discount]` of forces built
in `__init__`. -/
structure FarNonbondedForce where
  total : NonbondedForce
  discount : CustomNonbondedForce

/-- The body of `FarNonbondedForce.__init__` after the `isinstance` check has
succeeded. -/
def FarNonbondedForce.ofNear (preceding : NearNonbondedForce) (cutoff_distance : ℚ)
    (switch_distance : Option ℚ) : FarNonbondedForce :=
  { total := NonbondedForce.init cutoff_distance switch_distance
    discount := CustomNonbondedForce.init
      (farDiscountEnergy preceding.rswitch preceding.rcut preceding.shifted)
      cutoff_distance none }

/-- The energy of a `FarNonbondedForce` on one pair: the AtomsMM `Force` base
class treats its list of OpenMM forces as a single force, so the contributions
of `total` and `discount` add. -/
def FarNonbondedForce.pairEnergy (f : FarNonbondedForce) (p : PairParams) (r : ℚ) : ℚ :=
  f.total.pairEnergy p r + f.discount.pairEnergy p r

/-- Embeds `utils.InputError` (raised messages are plain strings). -/
abbrev InputError := String

/-- The energy expression built in `DampedSmoothedForce.__init__`:
`S*(LJ(r) + erfc(alpha*r)*Coulomb(r))` with `S = 1` when `degree == 1` and
the explicit polynomial multiplier otherwise. The toolkit-supplied `erfc`
function is passed as a parameter. -/
def dampedEnergy (erfc : ℚ → ℚ) (alpha rswitch rcut : ℚ) (degree : ℕ)
    (p : PairParams) (r : ℚ) : ℚ :=
  (if degree = 1 then 1 else switchS rswitch rcut degree r) *
    (LennardJones p.epsilon p.sigma r + erfc (alpha * r) * Coulomb KcVal p.chargeprod r)

/-- Embeds `DampedSmoothedForce`: the single custom force built in `__init__`. -/
structure DampedSmoothedForce where
  force : CustomNonbondedForce

/-- The body of `DampedSmoothedForce.__init__` after validation: the custom
force is built with the switching distance delegated to the toolkit exactly
when `degree == 1`. -/
def DampedSmoothedForce.build (erfc : ℚ → ℚ) (alpha cutoff_distance switch_distance : ℚ)
    (degree : ℕ) : DampedSmoothedForce :=
  ⟨CustomNonbondedForce.init (dampedEnergy erfc alpha switch_distance cutoff_distance degree)
    cutoff_distance (if degree = 1 then some switch_distance else none)⟩

/-- Embeds `DampedSmoothedForce.__init__` including its validation: an
`InputError` is raised when `switch_distance < 0` or
`switch_distance >= cutoff_distance`. -/
def DampedSmoothedForce.make (erfc : ℚ → ℚ) (alpha cutoff_distance switch_distance : ℚ)
    (degree : ℕ) : Except InputError DampedSmoothedForce :=
  if switch_distance < 0 ∨ switch_distance ≥ cutoff_distance then
    .error "Switching distance must satisfy 0 <= r_switch < r_cutoff"
  else
    .ok (DampedSmoothedForce.build erfc alpha cutoff_distance switch_distance degree)

/-- Whether an `Except` value represents a successful (non-raising)
construction. -/
def exceptOk {ε σ : Type} : Except ε σ → Bool
  | .ok _ => true
  | .error _ => false

/-- Per-particle nonbonded parameters, as imported from the toolkit
`NonbondedForce` (over `ℝ` because the Lorentz–Berthelot rule takes a square
root). -/
structure NbParticle where
  charge : ℝ
  sigma : ℝ
  epsilon : ℝ

/-- One exception entry of a toolkit `NonbondedForce`: a particle pair with
override values. -/
structure NbException where
  i : ℕ
  j : ℕ
  chargeprod : ℝ
  sigma : ℝ
  epsilon : ℝ

/-- Embeds `utils.LorentzBerthelot`: `chargeprod = charge1*charge2`,
`sigma = 0.5*(sigma1+sigma2)`, `epsilon = sqrt(epsilon1*epsilon2)`. -/
noncomputable def LorentzBerthelot (a b : NbParticle) : ℝ × ℝ × ℝ :=
  (a.charge * b.charge, 0.5 * (a.sigma + b.sigma), Real.sqrt (a.epsilon * b.epsilon))

/-- Embeds `_CustomBondForce`: the list of bonds added so far (each bond
carries the exception's own parameters verbatim). -/
structure CustomBondForce where
  bonds : List NbException

/-- Embeds `_CustomBondForce.__init__`: no bonds yet. -/
def CustomBondForce.init : CustomBondForce := ⟨[]⟩

/-- Embeds `_CustomBondForce.importFrom`: a bond is added for an exception
exactly when `chargeprod != 0 or epsilon != 0`. -/
noncomputable def CustomBondForce.importFrom (f : CustomBondForce)
    (exceptions : List NbException) : CustomBondForce :=
  ⟨f.bonds ++ exceptions.filter (fun e => e.chargeprod ≠ 0 ∨ e.epsilon ≠ 0)⟩

/-- The total energy of the exceptions bond force: each bond contributes the
unswitched, uncut `LJ + Coulomb` energy at the pair's distance. -/
noncomputable def CustomBondForce.totalEnergy (f : CustomBondForce)
    (rOf : ℕ → ℕ → ℝ) : ℝ :=
  (f.bonds.map (fun e =>
    LennardJones e.epsilon e.sigma (rOf e.i e.j)
      + Coulomb KcVal e.chargeprod (rOf e.i e.j))).sum

/-- Embeds `NonbondedExceptionsForce`: a single `_CustomBondForce`. -/
structure NonbondedExceptionsForce where
  force : CustomBondForce

/-- Embeds `NonbondedExceptionsForce.__init__`. -/
def NonbondedExceptionsForce.make : NonbondedExceptionsForce := ⟨CustomBondForce.init⟩

/-- The universe of Python values that can be passed as the `preceding`
argument of `FarNonbondedForce.__init__`. -/
inductive PyObject where
  | nearForce (f : NearNonbondedForce)
  | dampedForce (f : DampedSmoothedForce)
  | exceptionsForce (f : NonbondedExceptionsForce)
  | other (n : ℕ)

/-- The `isinstance(preceding, NearNonbondedForce)` test. -/
def PyObject.isNearNonbondedForce : PyObject → Bool
  | .nearForce _ => true
  | _ => false

/-- Embeds `FarNonbondedForce.__init__` including its validation: an
`InputError` is raised unless `preceding` is a `NearNonbondedForce`. -/
def FarNonbondedForce.make (preceding : PyObject) (cutoff_distance : ℚ)
    (switch_distance : Option ℚ) : Except InputError FarNonbondedForce :=
  match preceding with
  | .nearForce nf => .ok (FarNonbondedForce.ofNear nf cutoff_distance switch_distance)
  | _ => .error "argument preceding must be an internal RESPA force"

/-- The parameter table of a `_NonbondedForce` after import: all particles and
all exception entries. -/
structure NonbondedForceParams where
  particles : List NbParticle
  exceptions : List NbException

/-- Embeds `_NonbondedForce.importFrom`: particles are copied, and every
exception is re-added with `0.0*chargeprod` and `0.0*epsilon`. -/
def NonbondedForce.importFrom (particles : List NbParticle)
    (exceptions : List NbException) : NonbondedForceParams :=
  ⟨particles, exceptions.map (fun e => ⟨e.i, e.j, 0 * e.chargeprod, e.sigma, 0 * e.epsilon⟩)⟩

/-- Embeds `_CustomNonbondedForce.importFrom`: every exception pair is
registered as an exclusion. -/
def CustomNonbondedForce.importExclusions (exceptions : List NbException) : List (ℕ × ℕ) :=
  exceptions.map (fun e => (e.i, e.j))

/-- Looks up the exception entry governing the unordered pair `(i, j)`, if
any. -/
def findException (exceptions : List NbException) (i j : ℕ) : Option NbException :=
  exceptions.find? (fun e => (e.i == i && e.j == j) || (e.i == j && e.j == i))

/-- Particle lookup by index (indices produced by import are in range). -/
def particleAt (particles : List NbParticle) (i : ℕ) : NbParticle :=
  particles.getD i ⟨0, 0, 0⟩

/-- Modelled from the spec: the toolkit `NonbondedForce` energy of one pair —
an exception pair contributes with its override values verbatim and no
cutoff, and a general pair contributes the Lorentz–Berthelot-combined
`LJ + Coulomb` energy within the cutoff. -/
noncomputable def nbPairTerm (ps : NonbondedForceParams) (rOf : ℕ → ℕ → ℝ)
    (cutoff : ℝ) (i j : ℕ) : ℝ :=
  match findException ps.exceptions i j with
  | some e => LennardJones e.epsilon e.sigma (rOf i j) + Coulomb KcVal e.chargeprod (rOf i j)
  | none =>
    if rOf i j ≤ cutoff then
      LennardJones (LorentzBerthelot (particleAt ps.particles i) (particleAt ps.particles j)).2.2
          (LorentzBerthelot (particleAt ps.particles i) (particleAt ps.particles j)).2.1 (rOf i j)
        + Coulomb KcVal
            (LorentzBerthelot (particleAt ps.particles i) (particleAt ps.particles j)).1 (rOf i j)
    else 0

/-- All index pairs `i < j` over `n` particles. -/
def allPairs (n : ℕ) : List (ℕ × ℕ) :=
  (List.range n).flatMap (fun i => ((List.range n).filter (fun j => i < j)).map (fun j => (i, j)))

/-- Modelled from the spec: the toolkit `NonbondedForce` total energy — the
sum of `nbPairTerm` over all particle pairs. -/
noncomputable def nbTotalEnergy (ps : NonbondedForceParams) (rOf : ℕ → ℕ → ℝ)
    (cutoff : ℝ) : ℝ :=
  ((allPairs ps.particles.length).map (fun ij => nbPairTerm ps rOf cutoff ij.1 ij.2)).sum

/-- Modelled from the spec: one pair's contribution to a custom nonbonded
kernel — zero when the pair is registered as an exclusion. -/
def customPairTerm (energyOf : ℕ → ℕ → ℝ) (exclusions : List (ℕ × ℕ)) (i j : ℕ) : ℝ :=
  if (i, j) ∈ exclusions ∨ (j, i) ∈ exclusions then 0 else energyOf i j

/-- Python-dict insertion (`d[k] = v`) on an insertion-ordered association
list: an existing key is updated in place, a new key is appended. -/
def pyDictInsert {β : Type} (d : List (String × β)) (k : String) (v : β) :
    List (String × β) :=
  if d.any (fun kv => kv.1 == k) then
    d.map (fun kv => if kv.1 == k then (kv.1, v) else kv)
  else d ++ [(k, v)]

/-- Python-dict lookup (`d[k]`, as an `Option`). -/
def pyDictLookup {β : Type} (d : List (String × β)) (k : String) : Option β :=
  (d.find? (fun kv => kv.1 == k)).map Prod.snd

/-- The labelling loop of `utils.splitPotentialEnergy`: each force contributes
its group energy under its class name, disambiguated as `Name(k)` from the
second occurrence on, using the `terms` occurrence-counter dict. -/
def splitEnergyLoop : List (String × ℚ) → List (String × ℕ) → List (String × ℚ) →
    List (String × ℚ)
  | [], _, energy => energy
  | (forceType, e) :: rest, terms, energy =>
    match pyDictLookup terms forceType with
    | none =>
      splitEnergyLoop rest (pyDictInsert terms forceType 0) (pyDictInsert energy forceType e)
    | some c =>
      splitEnergyLoop rest (pyDictInsert terms forceType (c + 1))
        (pyDictInsert energy (forceType ++ "(" ++ toString (c + 1) ++ ")") e)

/-- Embeds the dictionary construction of `utils.splitPotentialEnergy`: the
input pairs each attached force's class name with its force-group energy; the
final `"Total"` entry is the sum of all values present at that point. -/
def splitPotentialEnergy (forceEnergies : List (String × ℚ)) : List (String × ℚ) :=
  pyDictInsert (splitEnergyLoop forceEnergies [] [])
    "Total" ((splitEnergyLoop forceEnergies [] []).map Prod.snd).sum

/-- The sum of all non-`"Total"` entries of an energy dict. -/
def sumOfOtherEntries (d : List (String × ℚ)) : ℚ :=
  ((d.filter (fun kv => kv.1 ≠ "Total")).map Prod.snd).sum

/-- A toolkit force object on the Python heap: its class name and its force
group. -/
structure OMMForce where
  kind : String
  forceGroup : ℕ

/-- A toolkit system object: references to the force objects it owns. -/
structure OMMSystem where
  forceRefs : List ℕ

/-- The Python heap of force objects; a reference is an index into the store,
and allocation appends. -/
structure Heap where
  store : List OMMForce

/-- Dereference a force object. -/
def Heap.get (h : Heap) (ref : ℕ) : OMMForce :=
  h.store.getD ref ⟨"", 0⟩

/-- In-place `force.setForceGroup(group)` on the object behind `ref`. -/
def Heap.setGroup (h : Heap) (ref grp : ℕ) : Heap :=
  ⟨h.store.set ref { h.get ref with forceGroup := grp }⟩

/-- Embeds `deepcopy(system)`: fresh copies of every referenced force object
are allocated, and the copy references only those fresh objects. -/
def deepcopySystem (h : Heap) (system : OMMSystem) : Heap × OMMSystem :=
  (⟨h.store ++ system.forceRefs.map h.get⟩,
   ⟨(List.range system.forceRefs.length).map (fun k => h.store.length + k)⟩)

/-- Embeds the tagging loop of `utils.splitPotentialEnergy`:
`for (index, force) in enumerate(forces): force.setForceGroup(index)`. -/
def tagForceGroupsFrom : Heap → ℕ → List ℕ → Heap
  | h, _, [] => h
  | h, index, ref :: rest => tagForceGroupsFrom (h.setGroup ref index) (index + 1) rest

/-- The heap effect of `utils.splitPotentialEnergy`: the system is deep-copied
and the per-force-group tagging is applied to the copy only; the caller keeps
its own system object. -/
def splitPotentialEnergySystemEffect (h : Heap) (system : OMMSystem) : Heap × OMMSystem :=
  (tagForceGroupsFrom (deepcopySystem h system).1 0 (deepcopySystem h system).2.forceRefs,
   system)

/-- The particle masses and constraint count of a toolkit system, the inputs
read by `utils.countDegreesOfFreedom`. -/
structure MMSystemDof where
  masses : List ℚ
  numConstraints : ℕ

/-- Embeds `utils.countDegreesOfFreedom`:
`sum(3 for i in range(N) if mass_i > 0) - 3 - numConstraints`. -/
def countDegreesOfFreedom (system : MMSystemDof) : ℤ :=
  ((system.masses.filter (fun m => 0 < m)).map (fun _ => (3 : ℤ))).sum - 3
    - (system.numConstraints : ℤ)

/-- The explicit degree-1 switching multiplier written out in
`FarNonbondedForce.__init__` coincides with the toolkit's native switching
function for every `r`. -/
theorem switchS_one_eq_openmmSwitch (rswitch rcut r : ℚ) :
    switchS rswitch rcut 1 r = openmmSwitch rswitch rcut r := by
  rcases le_or_lt r rswitch with h | h
  · rcases eq_or_lt_of_le h with heq | hlt
    · subst heq
      simp [switchS, openmmSwitch, uVal, step]
    · have hs : ¬ (0 : ℚ) ≤ r - rswitch := by linarith
      simp [switchS, openmmSwitch, step, hs, h]
  · have h1 : ¬ r ≤ rswitch := not_le.mpr h
    have h2 : (0 : ℚ) ≤ r - rswitch := by linarith
    simp only [switchS, openmmSwitch, uVal, step, if_pos h2, if_neg h1, pow_one]
    ring

/-- The discount potential of the Far force is the negation of the Near
potential for matching shift and cutoff configuration. -/
theorem farDiscountPotential_eq_neg_nearPotential (shifted : Bool) (rci : ℚ)
    (p : PairParams) (r : ℚ) :
    farDiscountPotential shifted rci p r = -nearPotential shifted rci p r := by
  cases shifted
  · simp [farDiscountPotential, nearPotential]
  · simp only [farDiscountPotential, nearPotential, if_pos]
    ring

/-- C1: a `FarNonbondedForce` built from a preceding `NearNonbondedForce`
complements it exactly: the discount term equals the negative of the Near
potential for `r` up to the inner cutoff, hence `Near(r) + Far(r)` equals the
unmodified toolkit pair potential for every `r`, and for `r` strictly beyond
the inner cutoff (up to the outer cutoff) the Far force contributes the
unmodified `LJ + Coulomb` potential alone. -/
theorem nearFar_complement (rs rci rcout r : ℚ) (shifted : Bool) (p : PairParams)
    (hio : rci ≤ rcout) :
    (r ≤ rci →
      (FarNonbondedForce.ofNear (NearNonbondedForce.make rci rs shifted) rcout
          none).discount.pairEnergy p r
        = -(NearNonbondedForce.make rci rs shifted).force.pairEnergy p r) ∧
    (NearNonbondedForce.make rci rs shifted).force.pairEnergy p r
        + (FarNonbondedForce.ofNear (NearNonbondedForce.make rci rs shifted) rcout
            none).pairEnergy p r
      = (FarNonbondedForce.ofNear (NearNonbondedForce.make rci rs shifted) rcout
          none).total.pairEnergy p r ∧
    (rci < r → r ≤ rcout →
      (FarNonbondedForce.ofNear (NearNonbondedForce.make rci rs shifted) rcout
          none).pairEnergy p r
        = LennardJones p.epsilon p.sigma r + Coulomb KcVal p.chargeprod r) := by
  have hdisc : ∀ _ : r ≤ rci,
      (FarNonbondedForce.ofNear (NearNonbondedForce.make rci rs shifted) rcout
          none).discount.pairEnergy p r
        = -(NearNonbondedForce.make rci rs shifted).force.pairEnergy p r := by
    intro hr
    have hro : r ≤ rcout := le_trans hr hio
    have hstep : step (rci - r) = (1 : ℚ) := by
      have : (0 : ℚ) ≤ rci - r := by linarith
      simp [step, this]
    simp only [FarNonbondedForce.ofNear, NearNonbondedForce.make,
      CustomNonbondedForce.init, CustomNonbondedForce.pairEnergy, if_pos hro, if_pos hr,
      farDiscountEnergy, hstep, switchS_one_eq_openmmSwitch,
      farDiscountPotential_eq_neg_nearPotential]
    ring
  have hdisc0 : ∀ _ : rci < r,
      (FarNonbondedForce.ofNear (NearNonbondedForce.make rci rs shifted) rcout
          none).discount.pairEnergy p r = 0 := by
    intro hr
    have hstep : step (rci - r) = (0 : ℚ) := by
      have : ¬ (0 : ℚ) ≤ rci - r := by linarith
      simp [step, this]
    simp only [FarNonbondedForce.ofNear, NearNonbondedForce.make,
      CustomNonbondedForce.init, CustomNonbondedForce.pairEnergy,
      farDiscountEnergy, hstep]
    split <;> simp
  refine ⟨hdisc, ?_, ?_⟩
  · rcases le_or_lt r rci with hr | hr
    · have := hdisc hr
      simp only [FarNonbondedForce.pairEnergy]
      linarith [this]
    · have hz := hdisc0 hr
      have hnear : (NearNonbondedForce.make rci rs shifted).force.pairEnergy p r = 0 := by
        simp only [NearNonbondedForce.make, CustomNonbondedForce.init,
          CustomNonbondedForce.pairEnergy, if_neg (not_le.mpr hr)]
      simp only [FarNonbondedForce.pairEnergy, hnear, hz]
      ring
  · intro hr hro
    have hz := hdisc0 hr
    have htot : (FarNonbondedForce.ofNear (NearNonbondedForce.make rci rs shifted) rcout
        none).total.pairEnergy p r
        = LennardJones p.epsilon p.sigma r + Coulomb KcVal p.chargeprod r := by
      simp only [FarNonbondedForce.ofNear, NonbondedForce.init, NonbondedForce.pairEnergy,
        if_pos hro]
      ring
    simp only [FarNonbondedForce.pairEnergy, hz, htot]
    ring

/-- Witness for C1 at `rs = 1`, `rci = 2`, `rcout = 3`, `r = 3/2`,
`shifted = true`, unit pair parameters. -/
theorem nearFar_complement_witness :
    ((3 / 2 : ℚ) ≤ 2 →
      (FarNonbondedForce.ofNear (NearNonbondedForce.make 2 1 true) 3
          none).discount.pairEnergy ⟨1, 1, 1⟩ (3 / 2)
        = -(NearNonbondedForce.make 2 1 true).force.pairEnergy ⟨1, 1, 1⟩ (3 / 2)) ∧
    (NearNonbondedForce.make 2 1 true).force.pairEnergy ⟨1, 1, 1⟩ (3 / 2)
        + (FarNonbondedForce.ofNear (NearNonbondedForce.make 2 1 true) 3
            none).pairEnergy ⟨1, 1, 1⟩ (3 / 2)
      = (FarNonbondedForce.ofNear (NearNonbondedForce.make 2 1 true) 3
          none).total.pairEnergy ⟨1, 1, 1⟩ (3 / 2) ∧
    ((2 : ℚ) < 3 / 2 → (3 / 2 : ℚ) ≤ 3 →
      (FarNonbondedForce.ofNear (NearNonbondedForce.make 2 1 true) 3
          none).pairEnergy ⟨1, 1, 1⟩ (3 / 2)
        = LennardJones (1 : ℚ) 1 (3 / 2) + Coulomb KcVal 1 (3 / 2)) :=
  nearFar_complement 1 2 3 (3 / 2) true ⟨1, 1, 1⟩ (by norm_num)

/-- C2: for every valid pair `(switch, cutoff)` with `0 ≤ switch < cutoff` and
every degree `≥ 1`, the switching multiplier of the source's energy expressions
satisfies `S(switch) = 1` and `S(cutoff) = 0` exactly. -/
theorem switchS_boundary (rswitch rcut : ℚ) (degree : ℕ)
    (h0 : 0 ≤ rswitch) (hlt : rswitch < rcut) (hdeg : 1 ≤ degree) :
    switchS rswitch rcut degree rswitch = 1 ∧ switchS rswitch rcut degree rcut = 0 := by
  have hpow : rswitch ^ degree < rcut ^ degree :=
    pow_lt_pow_left₀ hlt h0 (Nat.one_le_iff_ne_zero.mp hdeg)
  have hne : rcut ^ degree - rswitch ^ degree ≠ 0 := sub_ne_zero.mpr (ne_of_gt hpow)
  constructor
  · have hu : uVal rswitch rcut degree rswitch = 0 := by
      simp [uVal]
    simp [switchS, hu]
  · have hu : uVal rswitch rcut degree rcut = 1 := by
      rw [uVal, div_self hne]
    have hstep : step (rcut - rswitch) = (1 : ℚ) := by
      have : (0 : ℚ) ≤ rcut - rswitch := sub_nonneg.mpr (le_of_lt hlt)
      simp [step, this]
    rw [switchS, hu, hstep]
    ring

/-- Witness for C2 at `rswitch = 1`, `rcut = 2`, `degree = 2`. -/
theorem switchS_boundary_witness :
    switchS (1 : ℚ) 2 2 1 = 1 ∧ switchS (1 : ℚ) 2 2 2 = 0 :=
  switchS_boundary 1 2 2 (by norm_num) (by norm_num) (by norm_num)

/-- C6: constructing a `DampedSmoothedForce` raises `InputError` if and only
if `switch_distance < 0` or `switch_distance >= cutoff_distance`; for
`0 <= switch_distance < cutoff_distance` construction succeeds. -/
theorem dampedSmoothed_make_ok_iff (erfc : ℚ → ℚ)
    (alpha cutoff_distance switch_distance : ℚ) (degree : ℕ) :
    exceptOk (DampedSmoothedForce.make erfc alpha cutoff_distance switch_distance degree)
        = true
      ↔ (0 ≤ switch_distance ∧ switch_distance < cutoff_distance) := by
  unfold DampedSmoothedForce.make
  by_cases h : switch_distance < 0 ∨ switch_distance ≥ cutoff_distance
  · rw [if_pos h]
    simp only [exceptOk, Bool.false_eq_true, false_iff, not_and, not_lt]
    intro h0
    rcases h with h | h
    · linarith
    · exact h
  · rw [if_neg h]
    simp only [exceptOk, true_iff]
    push_neg at h
    exact h

/-- C7: constructing a `FarNonbondedForce` succeeds exactly when the
`preceding` argument is a `NearNonbondedForce` instance, and raises
`InputError` otherwise. -/
theorem farNonbonded_make_ok_iff (preceding : PyObject) (cutoff_distance : ℚ)
    (switch_distance : Option ℚ) :
    exceptOk (FarNonbondedForce.make preceding cutoff_distance switch_distance)
      = preceding.isNearNonbondedForce := by
  cases preceding <;> rfl

/-- C8: with `degree == 1` the explicit polynomial multiplier is disabled
(the energy has no `S` factor) and the switch distance is passed to the
toolkit force, while with `degree > 1` the explicit multiplier in `r^degree`
is used and no toolkit switching distance is set. -/
theorem dampedSmoothed_degree_dispatch (erfc : ℚ → ℚ) (alpha rswitch rcut : ℚ)
    (p : PairParams) (r : ℚ) (degree : ℕ) (hdeg : 1 < degree) :
    (DampedSmoothedForce.build erfc alpha rcut rswitch 1).force.switchingDistance
        = some rswitch ∧
    (DampedSmoothedForce.build erfc alpha rcut rswitch 1).force.useSwitchingFunction = true ∧
    (DampedSmoothedForce.build erfc alpha rcut rswitch 1).force.energy p r
      = LennardJones p.epsilon p.sigma r
          + erfc (alpha * r) * Coulomb KcVal p.chargeprod r ∧
    (DampedSmoothedForce.build erfc alpha rcut rswitch degree).force.switchingDistance
        = none ∧
    (DampedSmoothedForce.build erfc alpha rcut rswitch degree).force.useSwitchingFunction
        = false ∧
    (DampedSmoothedForce.build erfc alpha rcut rswitch degree).force.energy p r
      = switchS rswitch rcut degree r *
          (LennardJones p.epsilon p.sigma r
            + erfc (alpha * r) * Coulomb KcVal p.chargeprod r) := by
  have hne : degree ≠ 1 := by omega
  refine ⟨rfl, rfl, ?_, ?_, ?_, ?_⟩
  · simp [DampedSmoothedForce.build, CustomNonbondedForce.init, dampedEnergy]
  · simp [DampedSmoothedForce.build, CustomNonbondedForce.init, hne]
  · simp [DampedSmoothedForce.build, CustomNonbondedForce.init, hne]
  · simp [DampedSmoothedForce.build, CustomNonbondedForce.init, dampedEnergy, hne]

/-- Witness for C8 at `erfc = id`, `alpha = 1`, `rswitch = 1`, `rcut = 2`,
unit pair parameters, `r = 3`, `degree = 2`. -/
theorem dampedSmoothed_degree_dispatch_witness :
    (1 < 2) ∧
    ((DampedSmoothedForce.build id 1 2 1 1).force.switchingDistance = some 1 ∧
     (DampedSmoothedForce.build id 1 2 1 1).force.useSwitchingFunction = true ∧
     (DampedSmoothedForce.build id 1 2 1 1).force.energy ⟨1, 1, 1⟩ 3
       = LennardJones (1 : ℚ) 1 3 + id ((1 : ℚ) * 3) * Coulomb KcVal 1 3 ∧
     (DampedSmoothedForce.build id 1 2 1 2).force.switchingDistance = none ∧
     (DampedSmoothedForce.build id 1 2 1 2).force.useSwitchingFunction = false ∧
     (DampedSmoothedForce.build id 1 2 1 2).force.energy ⟨1, 1, 1⟩ 3
       = switchS 1 2 2 3 * (LennardJones (1 : ℚ) 1 3 + id ((1 : ℚ) * 3) * Coulomb KcVal 1 3)) :=
  ⟨by norm_num, dampedSmoothed_degree_dispatch id 1 1 2 ⟨1, 1, 1⟩ 3 2 (by norm_num)⟩

/-- C10: `countDegreesOfFreedom` returns exactly three times the number of
particles with strictly positive mass, minus 3, minus the number of
constraints, with no clamping — on a degenerate system the result is
negative. -/
theorem countDegreesOfFreedom_formula :
    (∀ system : MMSystemDof,
      countDegreesOfFreedom system
        = 3 * ((system.masses.filter (fun m => 0 < m)).length : ℤ) - 3
            - (system.numConstraints : ℤ)) ∧
    countDegreesOfFreedom ⟨[], 0⟩ < 0 := by
  constructor
  · intro system
    unfold countDegreesOfFreedom
    rw [List.map_const', List.sum_replicate, nsmul_eq_mul]
    ring
  · decide

/-- A key of the form `name(counter)` is never the string `"Total"`, since it
contains a parenthesis. -/
theorem appended_counter_key_ne (a b c : String) : (a ++ "(" ++ b ++ c) ≠ "Total" := by
  intro h
  have hm : '(' ∈ (a ++ "(" ++ b ++ c).data := by
    rw [String.data_append, String.data_append, String.data_append]
    simp [List.mem_append]
  rw [h] at hm
  revert hm
  decide

/-- `pyDictInsert` preserves a property of the keys. -/
theorem pyDictInsert_keys {β : Type} (d : List (String × β)) (k : String) (v : β)
    (P : String → Prop) (hd : ∀ kv ∈ d, P kv.1) (hk : P k) :
    ∀ kv ∈ pyDictInsert d k v, P kv.1 := by
  intro kv hkv
  unfold pyDictInsert at hkv
  split at hkv
  · obtain ⟨kv0, hkv0, heq⟩ := List.mem_map.mp hkv
    split at heq
    · rw [← heq]
      exact hd kv0 hkv0
    · rw [← heq]
      exact hd kv0 hkv0
  · rcases List.mem_append.mp hkv with hmem | hmem
    · exact hd kv hmem
    · simp only [List.mem_singleton] at hmem
      rw [hmem]
      exact hk

/-- No key produced by the labelling loop is `"Total"` as long as no force
class name is. -/
theorem splitEnergyLoop_keys (fs : List (String × ℚ)) (terms : List (String × ℕ))
    (energy : List (String × ℚ))
    (he : ∀ kv ∈ energy, kv.1 ≠ "Total") (hf : ∀ kv ∈ fs, kv.1 ≠ "Total") :
    ∀ kv ∈ splitEnergyLoop fs terms energy, kv.1 ≠ "Total" := by
  induction fs generalizing terms energy with
  | nil => simpa [splitEnergyLoop] using he
  | cons head tl ih =>
    obtain ⟨name, e⟩ := head
    have hname : name ≠ "Total" := hf (name, e) (List.mem_cons_self _ _)
    have htl : ∀ kv ∈ tl, kv.1 ≠ "Total" := fun kv hkv => hf kv (List.mem_cons_of_mem _ hkv)
    rw [splitEnergyLoop]
    cases hmatch : pyDictLookup terms name with
    | none =>
      exact ih _ _
        (pyDictInsert_keys energy name e (fun s => s ≠ "Total") he hname) htl
    | some c =>
      exact ih _ _
        (pyDictInsert_keys energy (name ++ "(" ++ toString (c + 1) ++ ")") e
          (fun s => s ≠ "Total") he (appended_counter_key_ne _ _ _)) htl

/-- C3 counterexample: with a force whose class name is literally `"Total"`,
the returned dictionary's `"Total"` entry is not the sum of the other
entries. -/
theorem splitPotentialEnergy_total_counterexample :
    pyDictLookup (splitPotentialEnergy [("Total", (5 : ℚ))]) "Total"
      ≠ some (sumOfOtherEntries (splitPotentialEnergy [("Total", (5 : ℚ))])) := by
  have h1 : splitEnergyLoop [("Total", (5 : ℚ))] [] [] = [("Total", (5 : ℚ))] := rfl
  have h2 : splitPotentialEnergy [("Total", (5 : ℚ))]
      = [("Total", List.sum [(5 : ℚ)])] := by
    rw [splitPotentialEnergy, h1]
    rfl
  rw [h2]
  simp only [pyDictLookup, sumOfOtherEntries, List.find?, List.filter]
  norm_num

/-- C3 (amended): provided no attached force's class name is the string
`"Total"`, the dictionary returned by `splitPotentialEnergy` has a `"Total"`
entry equal to the sum of all the other entries. -/
theorem splitPotentialEnergy_total (forceEnergies : List (String × ℚ))
    (h : ∀ kv ∈ forceEnergies, kv.1 ≠ "Total") :
    pyDictLookup (splitPotentialEnergy forceEnergies) "Total"
      = some (sumOfOtherEntries (splitPotentialEnergy forceEnergies)) := by
  have hkeys : ∀ kv ∈ splitEnergyLoop forceEnergies [] [], kv.1 ≠ "Total" :=
    splitEnergyLoop_keys forceEnergies [] [] (by simp) h
  have hany : (splitEnergyLoop forceEnergies [] []).any (fun kv => kv.1 == "Total") = false := by
    rw [List.any_eq_false]
    intro kv hkv
    simpa using hkeys kv hkv
  have hins : splitPotentialEnergy forceEnergies
      = splitEnergyLoop forceEnergies [] []
        ++ [("Total", ((splitEnergyLoop forceEnergies [] []).map Prod.snd).sum)] := by
    rw [splitPotentialEnergy, pyDictInsert, if_neg (by rw [hany]; simp)]
  rw [hins]
  have hfind : (splitEnergyLoop forceEnergies [] []).find? (fun kv => kv.1 == "Total")
      = none := by
    rw [List.find?_eq_none]
    intro kv hkv
    simpa using hkeys kv hkv
  have hlook : pyDictLookup (splitEnergyLoop forceEnergies [] []
        ++ [("Total", ((splitEnergyLoop forceEnergies [] []).map Prod.snd).sum)]) "Total"
      = some ((splitEnergyLoop forceEnergies [] []).map Prod.snd).sum := by
    rw [pyDictLookup, List.find?_append, hfind]
    simp
  rw [hlook]
  have hfilter : (splitEnergyLoop forceEnergies [] []
        ++ [("Total", ((splitEnergyLoop forceEnergies [] []).map Prod.snd).sum)]).filter
          (fun kv => kv.1 ≠ "Total")
      = splitEnergyLoop forceEnergies [] [] := by
    rw [List.filter_append]
    have h1 : (splitEnergyLoop forceEnergies [] []).filter (fun kv => kv.1 ≠ "Total")
        = splitEnergyLoop forceEnergies [] [] := by
      rw [List.filter_eq_self]
      intro kv hkv
      simpa using hkeys kv hkv
    rw [h1]
    simp
  rw [sumOfOtherEntries, hfilter]

/-- Witness for C3 (amended) on a concrete force list with a repeated class
name. -/
theorem splitPotentialEnergy_total_witness :
    pyDictLookup (splitPotentialEnergy
        [("HarmonicBondForce", (2 : ℚ)), ("NonbondedForce", 3), ("NonbondedForce", 4)]) "Total"
      = some (sumOfOtherEntries (splitPotentialEnergy
        [("HarmonicBondForce", (2 : ℚ)), ("NonbondedForce", 3), ("NonbondedForce", 4)])) :=
  splitPotentialEnergy_total _ (by decide)

/-- The tagging loop only writes through the references it is given: every
other heap cell is untouched. -/
theorem tagForceGroupsFrom_get_of_notMem (refs : List ℕ) (h : Heap) (index ref : ℕ)
    (hall : ∀ ρ ∈ refs, ρ ≠ ref) :
    (tagForceGroupsFrom h index refs).get ref = h.get ref := by
  induction refs generalizing h index with
  | nil => rfl
  | cons r rest ih =>
    rw [tagForceGroupsFrom]
    rw [ih _ _ (fun ρ hρ => hall ρ (List.mem_cons_of_mem _ hρ))]
    have hr : r ≠ ref := hall r (List.mem_cons_self _ _)
    simp only [Heap.get, Heap.setGroup, List.getD_eq_getElem?_getD, List.getElem?_set_ne hr]

/-- C9: `splitPotentialEnergy` deep-copies the system before tagging force
groups, so every pre-existing heap object — in particular every force of the
caller's system together with its force group — is unchanged, and the
caller's system object itself is returned as it was. -/
theorem splitPotentialEnergy_no_mutation (h : Heap) (system : OMMSystem) (ref : ℕ)
    (href : ref < h.store.length) :
    (splitPotentialEnergySystemEffect h system).1.get ref = h.get ref ∧
    (splitPotentialEnergySystemEffect h system).2 = system := by
  refine ⟨?_, rfl⟩
  rw [splitPotentialEnergySystemEffect]
  have hall : ∀ ρ ∈ (deepcopySystem h system).2.forceRefs, ρ ≠ ref := by
    intro ρ hρ
    rw [deepcopySystem] at hρ
    simp only [List.mem_map, List.mem_range] at hρ
    obtain ⟨k, hk, hρeq⟩ := hρ
    omega
  rw [tagForceGroupsFrom_get_of_notMem _ _ _ _ hall]
  simp only [deepcopySystem, Heap.get, List.getD_eq_getElem?_getD, List.getElem?_append,
    if_pos href]

/-- Witness for C9 on a two-force heap. -/
theorem splitPotentialEnergy_no_mutation_witness :
    0 < (Heap.mk [⟨"NonbondedForce", 0⟩, ⟨"HarmonicBondForce", 0⟩]).store.length ∧
    ((splitPotentialEnergySystemEffect
          ⟨[⟨"NonbondedForce", 0⟩, ⟨"HarmonicBondForce", 0⟩]⟩ ⟨[0, 1]⟩).1.get 0
        = (Heap.mk [⟨"NonbondedForce", 0⟩, ⟨"HarmonicBondForce", 0⟩]).get 0 ∧
      (splitPotentialEnergySystemEffect
          ⟨[⟨"NonbondedForce", 0⟩, ⟨"HarmonicBondForce", 0⟩]⟩ ⟨[0, 1]⟩).2 = ⟨[0, 1]⟩) :=
  ⟨by decide,
   splitPotentialEnergy_no_mutation ⟨[⟨"NonbondedForce", 0⟩, ⟨"HarmonicBondForce", 0⟩]⟩
     ⟨[0, 1]⟩ 0 (by decide)⟩

/-- C5: the Lorentz–Berthelot rule of `utils.LorentzBerthelot` is consistent
on self-pairs: `combine(i, i)` yields `charge_i^2`, `sigma_i` and
`epsilon_i`. -/
theorem LorentzBerthelot_self (p : NbParticle) (hε : 0 ≤ p.epsilon) :
    (LorentzBerthelot p p).1 = p.charge ^ 2 ∧
    (LorentzBerthelot p p).2.1 = p.sigma ∧
    (LorentzBerthelot p p).2.2 = p.epsilon := by
  refine ⟨?_, ?_, ?_⟩
  · simp only [LorentzBerthelot]
    ring
  · simp only [LorentzBerthelot]
    ring
  · simp only [LorentzBerthelot]
    exact Real.sqrt_mul_self hε

/-- Witness for C5 at `charge = 2`, `sigma = 3`, `epsilon = 4`. -/
theorem LorentzBerthelot_self_witness :
    (LorentzBerthelot ⟨2, 3, 4⟩ ⟨2, 3, 4⟩).1 = (2 : ℝ) ^ 2 ∧
    (LorentzBerthelot ⟨2, 3, 4⟩ ⟨2, 3, 4⟩).2.1 = (3 : ℝ) ∧
    (LorentzBerthelot ⟨2, 3, 4⟩ ⟨2, 3, 4⟩).2.2 = (4 : ℝ) :=
  LorentzBerthelot_self ⟨2, 3, 4⟩ (by norm_num)

/-- C4 (amended): an exception pair whose override values are all zero
contributes exactly zero to every kernel: the bond force skips it entirely
(so that kernel is identical with and without it), in the general nonbonded
force its (zeroed) pair term is exactly zero, and in the custom nonbonded
forces the pair is registered as an exclusion and its term is zero. -/
theorem zero_exception_contributes_zero
    (f : CustomBondForce) (exceptions : List NbException) (e0 : NbException)
    (particles : List NbParticle) (rOf : ℕ → ℕ → ℝ) (cutoff : ℝ)
    (energyOf : ℕ → ℕ → ℝ)
    (h0c : e0.chargeprod = 0) (h0e : e0.epsilon = 0) :
    f.importFrom (exceptions ++ [e0]) = f.importFrom exceptions ∧
    (f.importFrom (exceptions ++ [e0])).totalEnergy rOf
      = (f.importFrom exceptions).totalEnergy rOf ∧
    (∀ i j, (findException (NonbondedForce.importFrom particles
          (exceptions ++ [e0])).exceptions i j).isSome = true →
        nbPairTerm (NonbondedForce.importFrom particles (exceptions ++ [e0]))
          rOf cutoff i j = 0) ∧
    customPairTerm energyOf
        (CustomNonbondedForce.importExclusions (exceptions ++ [e0])) e0.i e0.j = 0 := by
  have h1 : f.importFrom (exceptions ++ [e0]) = f.importFrom exceptions := by
    simp [CustomBondForce.importFrom, List.filter_append, h0c, h0e]
  refine ⟨h1, by rw [h1], ?_, ?_⟩
  · intro i j hsome
    cases hfind : findException (NonbondedForce.importFrom particles
        (exceptions ++ [e0])).exceptions i j with
    | none => rw [hfind] at hsome; simp at hsome
    | some e =>
      have hmem : e ∈ (NonbondedForce.importFrom particles (exceptions ++ [e0])).exceptions :=
        List.mem_of_find?_eq_some hfind
      simp only [NonbondedForce.importFrom, List.mem_map] at hmem
      obtain ⟨e1, _, heq⟩ := hmem
      unfold nbPairTerm
      rw [hfind, ← heq]
      simp [LennardJones, Coulomb]
  · have hmem : (e0.i, e0.j) ∈ CustomNonbondedForce.importExclusions (exceptions ++ [e0]) := by
      unfold CustomNonbondedForce.importExclusions
      exact List.mem_map.mpr ⟨e0, by simp, rfl⟩
    simp [customPairTerm, hmem]

/-- C4 counterexample: the decomposition is NOT identical with and without an
all-zero exception — without it the pair re-enters the general kernel. Two
unit charges at distance 1: with the all-zero exception the general nonbonded
kernel total is `0`, without it the total is `Kc ≠ 0`. -/
theorem zero_exception_decomposition_counterexample :
    nbTotalEnergy (NonbondedForce.importFrom [⟨1, 0, 0⟩, ⟨1, 0, 0⟩] [⟨0, 1, 0, 0, 0⟩])
        (fun _ _ => 1) 10 = 0 ∧
    nbTotalEnergy (NonbondedForce.importFrom [⟨1, 0, 0⟩, ⟨1, 0, 0⟩] [])
        (fun _ _ => 1) 10 = KcVal ∧
    (KcVal : ℝ) ≠ 0 ∧
    nbTotalEnergy (NonbondedForce.importFrom [⟨1, 0, 0⟩, ⟨1, 0, 0⟩] [⟨0, 1, 0, 0, 0⟩])
        (fun _ _ => 1) 10
      ≠ nbTotalEnergy (NonbondedForce.importFrom [⟨1, 0, 0⟩, ⟨1, 0, 0⟩] [])
        (fun _ _ => 1) 10 := by
  have hp : allPairs 2 = [(0, 1)] := by decide
  have h1 : nbTotalEnergy (NonbondedForce.importFrom [⟨1, 0, 0⟩, ⟨1, 0, 0⟩] [⟨0, 1, 0, 0, 0⟩])
      (fun _ _ => 1) 10 = 0 := by
    simp [nbTotalEnergy, NonbondedForce.importFrom, hp, nbPairTerm, findException,
      List.find?, LennardJones, Coulomb]
  have h2 : nbTotalEnergy (NonbondedForce.importFrom [⟨1, 0, 0⟩, ⟨1, 0, 0⟩] [])
      (fun _ _ => 1) 10 = KcVal := by
    simp [nbTotalEnergy, NonbondedForce.importFrom, hp, nbPairTerm, findException,
      List.find?, LennardJones, Coulomb, particleAt, LorentzBerthelot]
  have h3 : (KcVal : ℝ) ≠ 0 := by norm_num [KcVal]
  exact ⟨h1, h2, h3, by rw [h1, h2]; exact fun hc => h3 hc.symm⟩

/-- Witness for C4 (amended) on a concrete all-zero exception between two
unit-charge particles. -/
theorem zero_exception_contributes_zero_witness :
    ((⟨0, 1, 0, 1, 0⟩ : NbException).chargeprod = 0 ∧
     (⟨0, 1, 0, 1, 0⟩ : NbException).epsilon = 0) ∧
    (CustomBondForce.init.importFrom ([] ++ [⟨0, 1, 0, 1, 0⟩])
        = CustomBondForce.init.importFrom [] ∧
     (CustomBondForce.init.importFrom ([] ++ [⟨0, 1, 0, 1, 0⟩])).totalEnergy (fun _ _ => 1)
        = (CustomBondForce.init.importFrom []).totalEnergy (fun _ _ => 1) ∧
     (∀ i j, (findException (NonbondedForce.importFrom [⟨1, 0, 0⟩, ⟨1, 0, 0⟩]
            ([] ++ [⟨0, 1, 0, 1, 0⟩])).exceptions i j).isSome = true →
         nbPairTerm (NonbondedForce.importFrom [⟨1, 0, 0⟩, ⟨1, 0, 0⟩]
            ([] ++ [⟨0, 1, 0, 1, 0⟩])) (fun _ _ => 1) 10 i j = 0) ∧
     customPairTerm (fun _ _ => 5)
        (CustomNonbondedForce.importExclusions ([] ++ [⟨0, 1, 0, 1, 0⟩]))
        (⟨0, 1, 0, 1, 0⟩ : NbException).i (⟨0, 1, 0, 1, 0⟩ : NbException).j = 0) :=
  ⟨⟨rfl, rfl⟩,
   zero_exception_contributes_zero CustomBondForce.init [] ⟨0, 1, 0, 1, 0⟩
     [⟨1, 0, 0⟩, ⟨1, 0, 0⟩] (fun _ _ => 1) 10 (fun _ _ => 5) rfl rfl⟩
